import Mathlib

/-!
Shallow embedding of the `cmhac/chat-extract` repository (Python) in Lean 4,
used to settle the claims about its natural-language specification.

Source files embedded:
- `src/chat_extract/models.py` (`Message`, `MessageList`)
- `src/chat_extract/image_utils.py` (`extract_frames`)
- `src/chat_extract/extract.py` (`ChatTextExtractor.extract_from_video`,
  `ChatTextExtractor.extract_from_frame`, `to_polars`, `cleanup_df`,
  `extract_data_from_video`)
- `src/groupchat_text_extraction/main.py` (`process_frame`,
  `extract_data_from_video`, `extract_frames` variant)

Conventions: Python `None` becomes `Option.none`; a Python function that can
raise becomes a Lean function into `Except String _`; the cooperative
asyncio scheduler with a semaphore becomes an explicit step relation on a
task-status state; disk contents (the scratch frame files) become an explicit
`List String` of file names threaded through the model.
-/

/-! ## Data model — `src/chat_extract/models.py` -/

/-- Embeds the pydantic model `Message` (models.py lines 9-15): four optional
string-valued fields, `None` denoting absence.  The `timestamp` field is a
string at runtime: see `Message.model_validate` below for why the
`parse_timestamp` validator never runs. -/
structure Message where
  sender : Option String
  message : Option String
  timestamp : Option String
  image_description : Option String
deriving DecidableEq, Repr

/-- Embeds the pydantic model `MessageList` (models.py lines 31-34): a list of
messages, the per-frame batch. -/
structure MessageList where
  messages : List Message
deriving DecidableEq, Repr

/-- Embeds the body of `Message.parse_timestamp` (models.py lines 17-28) as
written: if the value is a string, try `datetime.fromisoformat` and raise
`ValueError` when it does not parse.  The external library parser is a
parameter `fromisoformat`; `none` models a parse failure.  Note that pydantic
never registers this validator (see `Message.model_validate`), so no theorem
below depends on it. -/
def parse_timestamp (fromisoformat : String → Option String) (v : Option String) :
    Except String (Option String) :=
  match v with
  | some s =>
    match fromisoformat s with
    | some d => Except.ok (some d)
    | none => Except.error "timestamp must be a valid ISO format datetime string"
  | none => Except.ok none

/-- Embeds pydantic validation of a `Message` from field values, as it behaves
at runtime.  In the source (models.py lines 17-18) the decorators are stacked
as `@classmethod` above `@field_validator("timestamp", mode="before")`:
pydantic v2 only collects validators whose class attribute is its own
descriptor proxy, and a proxy wrapped inside a plain `classmethod` is not
collected, so the `parse_timestamp` validator is never registered and never
invoked.  Validation is therefore the plain `str | datetime | None` union
check, which accepts any string and stores it verbatim.  The repository's own
tests rely on exactly this behaviour: `test_to_polars` and
`test_extract_data_from_video` assert that the timestamp strings
`"2022-02-02 14:00:00"` and `"2022-01-01 12:00:00"` (not ISO-normalized
datetimes) round-trip unchanged through `Message`. -/
def Message.model_validate (sender message timestamp image_description : Option String) :
    Except String Message :=
  Except.ok { sender := sender, message := message, timestamp := timestamp,
              image_description := image_description }

/-! ## Aggregator/Cleaner — `src/chat_extract/extract.py` lines 219-259 -/

/-- Embeds a polars DataFrame as its column names plus its rows (each row a
`Message` record).  `pl.DataFrame(row_data)` infers the columns from the dict
keys of the rows; with zero rows there are zero columns, which is what makes
`cleanup_df` raise on an empty extraction. -/
structure DataFrame where
  columns : List String
  rows : List Message
deriving DecidableEq, Repr

/-- Embeds `to_polars` (extract.py lines 219-227): flatten the message lists
into `row_data` and build a DataFrame.  `pl.DataFrame([])` has no columns at
all; a nonempty `row_data` yields the four model-dump columns. -/
def to_polars (message_lists : List MessageList) : DataFrame :=
  let row_data := (message_lists.map MessageList.messages).flatten
  { columns :=
      if row_data.isEmpty then []
      else ["sender", "message", "timestamp", "image_description"],
    rows := row_data }

/-- Embeds one `pl.when(pl.col(c) == tok).then(None).otherwise(pl.col(c))`
column expression from `cleanup_df`: a cell equal to the literal token becomes
null, every other cell (null included) is kept. -/
def replaceField (tok : String) (v : Option String) : Option String :=
  if v = some tok then none else v

/-- Embeds the `with_columns` placeholder replacement in `cleanup_df`
(extract.py lines 237-247): the three content fields are checked independently
against their own placeholder token; `image_description` is untouched. -/
def replacePlaceholders (r : Message) : Message :=
  { sender := replaceField "<sender_name>" r.sender,
    message := replaceField "<message_text>" r.message,
    timestamp := replaceField "<timestamp>" r.timestamp,
    image_description := r.image_description }

/-- Embeds the `filter` predicate in `cleanup_df` (extract.py lines 250-254):
keep a row when at least one of sender, message, timestamp is non-null. -/
def keepRow (r : Message) : Bool :=
  r.sender.isSome || r.message.isSome || r.timestamp.isSome

/-- Helper for `dedupFirst`: drop every element already seen, scanning left to
right. -/
def dedupFirstAux [DecidableEq α] (seen : List α) : List α → List α
  | [] => []
  | a :: l => if a ∈ seen then dedupFirstAux seen l else a :: dedupFirstAux (a :: seen) l

/-- Embeds `df.unique(maintain_order=True)` (extract.py line 257): exact
duplicate rows are removed keeping the first occurrence, preserving the order
of first occurrences. -/
def dedupFirst [DecidableEq α] (l : List α) : List α :=
  dedupFirstAux [] l

/-- The row-level content of `cleanup_df` (extract.py lines 230-259): replace
placeholder tokens by null per field, drop all-null rows, deduplicate
order-stably. -/
def cleanupRows (rows : List Message) : List Message :=
  dedupFirst (List.filter keepRow (rows.map replacePlaceholders))

/-- Embeds `cleanup_df` (extract.py lines 230-259) including its unstated
precondition: the `with_columns` expressions reference the columns `sender`,
`message` and `timestamp`, and polars raises `ColumnNotFoundError` when an
expression references a column the frame does not have (in particular on the
zero-column frame `pl.DataFrame([])`). -/
def cleanup_df (df : DataFrame) : Except String DataFrame :=
  if df.columns.contains "sender" && df.columns.contains "message"
      && df.columns.contains "timestamp" then
    Except.ok { columns := df.columns, rows := cleanupRows df.rows }
  else
    Except.error "ColumnNotFoundError"

/-- Embeds the tail of `extract_data_from_video` (extract.py lines 63-88)
after the dispatcher returned `message_lists`: build the DataFrame, clean it,
and (on success) the resulting frame is what `write_csv` serializes.  An
exception from `cleanup_df` propagates and no output file is written. -/
def extract_data_from_video (message_lists : List MessageList) : Except String DataFrame :=
  match cleanup_df (to_polars message_lists) with
  | Except.ok df => Except.ok df
  | Except.error e => Except.error e

/-! ## Frame Sampler — `src/chat_extract/image_utils.py` lines 16-55 -/

/-- File name used by `extract_frames` for the k-th saved frame
(image_utils.py line 46): named by `saved_count`, the emission order, not by
the decode-time index. -/
def frameName (k : Nat) : String := "frame_" ++ toString k ++ ".jpg"

/-- Loop state of `extract_frames`: the two counters `frame_count` and
`saved_count`, the returned list of file names, and the `cv2.imwrite` effect
recorded as pairs (file name, decode-time index of the frame data written). -/
structure FrameState where
  frame_count : Nat
  saved_count : Nat
  extracted_frames : List String
  written : List (String × Nat)
deriving DecidableEq, Repr

/-- One iteration of the `while cap.isOpened()` loop body of `extract_frames`
for a successful read (image_utils.py lines 39-51): when
`frame_count % n == 0`, write the current frame under `frameName saved_count`
and append the path; in all cases advance `frame_count`. -/
def extract_frames_step (n : Nat) (s : FrameState) : FrameState :=
  if s.frame_count % n == 0 then
    { frame_count := s.frame_count + 1,
      saved_count := s.saved_count + 1,
      extracted_frames := s.extracted_frames ++ [frameName s.saved_count],
      written := s.written ++ [(frameName s.saved_count, s.frame_count)] }
  else
    { s with frame_count := s.frame_count + 1 }

/-- Embeds `extract_frames` (image_utils.py lines 16-55) on a video that
decodes to `F` frames: the loop body runs once per decoded frame in decode
order, and the final unsuccessful read breaks the loop.  End of stream is not
an error, so `F = 0` yields the initial state with no files written. -/
def extract_frames (F n : Nat) : FrameState :=
  match F with
  | 0 => ⟨0, 0, [], []⟩
  | F' + 1 => extract_frames_step n (extract_frames F' n)

/-! ## Bounded Dispatcher — `src/chat_extract/extract.py` lines 149-175 -/

/-- Key order used by `indexed_results.sort(key=lambda x: x[0])` (extract.py
line 168): pairs compare by their frame index. -/
def keyLe (a b : Nat × α) : Prop := a.1 ≤ b.1

/-- Strict version of `keyLe`, used to show the sorted pair list is unique. -/
def keyLt (a b : Nat × α) : Prop := a.1 < b.1

instance : DecidableRel (@keyLe α) := fun a b => Nat.decLe a.1 b.1

instance : IsTotal (Nat × α) keyLe := ⟨fun a b => Nat.le_total a.1 b.1⟩

instance : IsTrans (Nat × α) keyLe := ⟨fun _ _ _ h1 h2 => Nat.le_trans h1 h2⟩

instance : IsAntisymm (Nat × α) keyLt :=
  ⟨fun _ _ h1 h2 => absurd (Nat.lt_trans h1 h2) (Nat.lt_irrefl _)⟩

/-- Embeds the task list of `extract_from_video` (extract.py lines 159-162):
each dispatched unit is tagged with its frame index at submission time via
`enumerate`, and the unit for index `idx` evaluates to `(idx, f frame)`. -/
def tasks (extracted_frames : List β) (f : β → α) : List (Nat × α) :=
  extracted_frames.enum.map (fun p => (p.1, f p.2))

/-- Embeds the fan-in of `extract_from_video` (extract.py lines 163-169): the
collected `(index, result)` pairs are sorted by frame index and the results
projected out.  Python's `list.sort` is a stable comparison sort on the key;
`List.insertionSort` over `keyLe` embeds it. -/
def extract_from_video (indexed_results : List (Nat × α)) : List α :=
  (List.insertionSort keyLe indexed_results).map Prod.snd

/-- Embeds `tqdm_asyncio.gather` over the `_extract_frame` coroutines
(extract.py lines 153-166) with respect to exceptions: `_extract_frame` does
not catch exceptions, so when any frame's `extract_from_frame` raises after
its retries are exhausted, the exception propagates out of `gather` and aborts
the run; only when every frame succeeds does the dispatcher obtain the list of
per-frame results.  (Which failing frame's exception surfaces depends on
completion timing; the model propagates the first in submission order — in
every case the run aborts with some frame's exception.) -/
def gatherResults (frame_results : List (Except ε α)) : Except ε (List α) :=
  match frame_results with
  | [] => Except.ok []
  | r :: rest =>
    match r with
    | Except.error e => Except.error e
    | Except.ok v =>
      match gatherResults rest with
      | Except.error e => Except.error e
      | Except.ok vs => Except.ok (v :: vs)

/-- Embeds the frame-file lifecycle of `extract_from_video` (extract.py lines
146-175): the cleared scratch directory holds exactly the extracted frame
files; the deletion loop (lines 171-173) unlinks them one by one, but it is
only reached when `gather` returned normally — an exhausted per-frame failure
propagates first and leaves every file in place.  Returns the run outcome and
the files still in the scratch directory afterwards. -/
def extract_from_video_disk (extracted_frames : List String)
    (frame_results : List (Except ε α)) : Except ε (List α) × List String :=
  match gatherResults frame_results with
  | Except.error e => (Except.error e, extracted_frames)
  | Except.ok vs => (Except.ok vs, List.foldl List.erase extracted_frames extracted_frames)

/-! ## Model Client retry — `src/chat_extract/extract.py` lines 177-216 -/

/-- Embeds tenacity's `wait_incrementing(start=1, increment=1)` (extract.py
line 178): the backoff in seconds slept after the `attempt_number`-th failed
attempt, `start + increment * (attempt_number - 1)`. -/
def wait_incrementing (start increment attempt_number : Nat) : Nat :=
  start + increment * (attempt_number - 1)

/-- Embeds the `@retry(stop=stop_after_attempt(3), reraise=True)` wrapper on
`extract_from_frame` (extract.py lines 177-181).  `call k` is the outcome of
the (k+1)-th attempt of the wrapped body (the remote model call); the first
argument is the number of attempts still allowed — the wrapper is only entered
with the cap 3.  On success the value is returned at once; on failure a
further attempt is made while attempts remain, and with `reraise=True` the
last attempt's exception is reraised verbatim once the cap is reached. -/
def retryAttempts (call : Nat → Except ε α) : Nat → Nat → Except ε α
  | 0, k => call k
  | 1, k => call k
  | remaining + 2, k =>
    match call k with
    | Except.ok v => Except.ok v
    | Except.error _ => retryAttempts call (remaining + 1) (k + 1)

/-- Embeds `ChatTextExtractor.extract_from_frame` (extract.py lines 177-216)
as observed by the dispatcher: the remote model call under the three-attempt
retry policy. -/
def extract_from_frame (call : Nat → Except ε α) : Except ε α :=
  retryAttempts call 3 0

/-! ## Dispatcher variant — `src/groupchat_text_extraction/main.py` lines 28-103 -/

/-- Embeds `process_frame` (main.py lines 70-79) with respect to its result:
the per-frame extraction outcome is guarded by `try/except Exception`, so a
frame that fails (even after its retries are exhausted) yields `None` in place
of data and never propagates. -/
def process_frame (r : Except ε α) : Option α :=
  match r with
  | Except.ok d => some d
  | Except.error _ => none

/-- Embeds the disk effect of `process_frame` (main.py lines 70-79): the
`finally` block executes `os.remove(frame)` whether or not the extraction
raised, so each processed frame's file is deleted unconditionally. -/
def process_frame_disk (disk : List String) (frame : String) : List String :=
  disk.erase frame

/-- Embeds the fan-in of the `groupchat_text_extraction` dispatcher (main.py
lines 81-92): every frame goes through `process_frame`; `None` results of
failed frames are skipped and the per-frame lists concatenated into
`extracted_data`.  The run always completes with a value. -/
def main_extracted_data (frame_results : List (Except ε (List α))) : List α :=
  (((frame_results.map process_frame).filterMap id)).flatten

/-- Embeds the disk effect of the whole `groupchat_text_extraction` run: each
frame task removes its own file in its `finally` block. -/
def main_run_disk (disk : List String) (frames : List String) : List String :=
  frames.foldl process_frame_disk disk

/-! ## Admission semaphore — extract.py lines 149-156 / main.py lines 67-82 -/

/-- Status of one dispatched frame task: not yet admitted by the semaphore,
holding a semaphore slot with its model call in flight, or completed
(`done true` for a successful call, `done false` for one that raised). -/
inductive TaskStatus where
  | pending
  | running
  | done (ok : Bool)
deriving DecidableEq, Repr

/-- Scheduler state: the per-task statuses and the semaphore's
available-permit count. -/
structure SemState where
  statuses : List TaskStatus
  available : Nat
deriving DecidableEq, Repr

/-- Whether a task currently has a model call in flight. -/
def isRunning (t : TaskStatus) : Bool :=
  match t with
  | TaskStatus.running => true
  | _ => false

/-- Number of model calls in flight in a scheduler state. -/
def runningCount (s : SemState) : Nat :=
  s.statuses.countP isRunning

/-- Embeds the scheduling steps of the semaphore-gated tasks (extract.py lines
151-156, and identically main.py lines 68-79): `start` admits a pending task
only when a permit is available and takes the permit (`async with semaphore`
entry suspends otherwise); `finish` completes a running task — either
returning a value or raising — and gives the permit back, because the
`async with` block releases on the normal and the exception exit path alike. -/
inductive SemStep : SemState → SemState → Prop where
  | start (s : SemState) (i : Nat) (h : s.statuses[i]? = some TaskStatus.pending)
      (ha : 0 < s.available) :
      SemStep s ⟨s.statuses.set i TaskStatus.running, s.available - 1⟩
  | finish (s : SemState) (i : Nat) (ok : Bool)
      (h : s.statuses[i]? = some TaskStatus.running) :
      SemStep s ⟨s.statuses.set i (TaskStatus.done ok), s.available + 1⟩

/-- Initial scheduler state: all tasks pending and all `C` permits available
(`asyncio.Semaphore(20)` in extract.py line 151, `asyncio.Semaphore(10)` in
main.py line 68). -/
def initState (numTasks C : Nat) : SemState :=
  ⟨List.replicate numTasks TaskStatus.pending, C⟩

/-- States the cooperative scheduler can reach during a run. -/
def Reachable (numTasks C : Nat) (s : SemState) : Prop :=
  Relation.ReflTransGen SemStep (initState numTasks C) s

/-! ## Example rows from the spec's Aggregator/Cleaner test case -/

/-- Row whose three content fields hold the prompt's literal placeholder
tokens, which the model sometimes echoes back. -/
def placeholderRow : Message :=
  ⟨some "<sender_name>", some "<message_text>", some "<timestamp>", none⟩

/-- Fully populated example row, appearing twice in the test input. -/
def aliceRow : Message := ⟨some "Alice", some "Hello", some "2022-01-01 12:00:00", none⟩

/-- Row with all three content fields null. -/
def allNullRow : Message := ⟨none, none, none, none⟩

/-- Row with a null timestamp but non-null sender and message. -/
def bobRow : Message := ⟨some "Bob", some "Hi", none, none⟩

/-! ## Theorems -/

/-- Arithmetic helper: one saving iteration bumps the ceiling count, and the
decode index of the newly saved frame is `saved_count * n`. -/
theorem ceil_step_zero (n F : Nat) (hn : 1 ≤ n) (h : F % n = 0) :
    (F + n) / n = (F + n - 1) / n + 1 ∧ ((F + n - 1) / n) * n = F := by
  obtain ⟨q, rfl⟩ := Nat.dvd_of_mod_eq_zero h
  have hpos : 0 < n := by omega
  have e1 : n * q + n - 1 = n * q + (n - 1) := by omega
  constructor
  · rw [Nat.mul_add_div hpos, Nat.div_self hpos, e1, Nat.mul_add_div hpos,
      Nat.div_eq_of_lt (by omega)]
  · rw [e1, Nat.mul_add_div hpos, Nat.div_eq_of_lt (by omega), Nat.add_zero,
      Nat.mul_comm]

/-- Arithmetic helper: a non-saving iteration leaves the ceiling count
unchanged. -/
theorem ceil_step_pos (n F : Nat) (hn : 1 ≤ n) (h : F % n ≠ 0) :
    (F + n) / n = (F + n - 1) / n := by
  have hpos : 0 < n := by omega
  have hr : F % n < n := Nat.mod_lt F hpos
  have hd : n * (F / n) + F % n = F := Nat.div_add_mod F n
  obtain ⟨q, r, hF, hr1, hrn⟩ : ∃ q r, F = n * q + r ∧ 1 ≤ r ∧ r < n :=
    ⟨F / n, F % n, by omega, by omega, hr⟩
  subst hF
  have e1 : n * q + r + n = n * q + (r + n) := by omega
  have e2 : n * q + r + n - 1 = n * q + (r + n - 1) := by omega
  have h3 : (r + n) / n = 1 := @Nat.div_eq_of_lt_le 1 n (r + n) (by omega) (by omega)
  have h4 : (r + n - 1) / n = 1 := @Nat.div_eq_of_lt_le 1 n (r + n - 1) (by omega) (by omega)
  rw [e2, e1, Nat.mul_add_div hpos, Nat.mul_add_div hpos, h3, h4]

/-- Loop invariant of `extract_frames` after `F` decoded frames: the decode
counter equals `F`, the emission counter equals `⌈F / n⌉`, the returned paths
are `frame_0 … frame_(⌈F/n⌉-1)` in emission order, and the frames written are
exactly the ones with decode-time indices `0, n, 2n, …`. -/
theorem extract_frames_spec (n : Nat) (hn : 1 ≤ n) : ∀ F,
    (extract_frames F n).frame_count = F ∧
    (extract_frames F n).saved_count = (F + n - 1) / n ∧
    (extract_frames F n).extracted_frames = (List.range ((F + n - 1) / n)).map frameName ∧
    (extract_frames F n).written
      = (List.range ((F + n - 1) / n)).map (fun k => (frameName k, k * n)) := by
  intro F
  induction F with
  | zero =>
    have h0 : (n - 1) / n = 0 := Nat.div_eq_of_lt (by omega)
    simp [extract_frames, h0]
  | succ F ih =>
    obtain ⟨hfc, hsc, hef, hw⟩ := ih
    have hFn : F + 1 + n - 1 = F + n := by omega
    by_cases h : F % n = 0
    · obtain ⟨h1, h2⟩ := ceil_step_zero n F hn h
      have hcond : (F % n == 0) = true := by simp [h]
      refine ⟨?_, ?_, ?_, ?_⟩ <;>
        simp only [extract_frames, extract_frames_step, hfc, hsc, hef, hw, hcond, if_true,
          hFn, h1, h2, List.range_succ, List.map_append, List.map_cons, List.map_nil]
    · obtain h1 := ceil_step_pos n F hn h
      have hcond : (F % n == 0) = false := by simp [h]
      refine ⟨?_, ?_, ?_, ?_⟩ <;>
        simp only [extract_frames, extract_frames_step, hfc, hsc, hef, hw, hcond,
          Bool.false_eq_true, if_false, hFn, h1]

/-- Deleting every name in a list from that same list empties it (the
dispatcher's deletion loop runs over exactly the extracted frame files). -/
theorem foldl_erase_self (l : List String) : List.foldl List.erase l l = [] := by
  induction l with
  | nil => rfl
  | cons x r ih =>
    rw [List.foldl_cons, List.erase_cons_head]
    exact ih

/-- Counting elements after replacing position `i`: the count changes by the
difference of the indicator values of the old and the new element. -/
theorem countP_set (p : TaskStatus → Bool) :
    ∀ (l : List TaskStatus) (i : Nat) (a b : TaskStatus), l[i]? = some a →
      (l.set i b).countP p + (if p a then 1 else 0)
        = l.countP p + (if p b then 1 else 0) := by
  intro l
  induction l with
  | nil => intro i a b h; simp at h
  | cons x r ih =>
    intro i a b h
    cases i with
    | zero =>
      simp only [List.getElem?_cons_zero, Option.some_inj] at h
      subst h
      simp only [List.set_cons_zero, List.countP_cons]
      omega
    | succ j =>
      simp only [List.getElem?_cons_succ] at h
      simp only [List.set_cons_succ, List.countP_cons]
      have := ih j a b h
      omega

/-- Claim C1: for every list of sampled frames, the Bounded Dispatcher returns
the per-frame results in original frame-index (submission) order regardless of
wall-clock completion order: each dispatched unit is tagged with its frame
index at submission, completions are recorded as (index, result) pairs in an
arbitrary completion order (any permutation of the dispatched units), and
after all complete the pairs are sorted by index and the results projected
out, yielding exactly the per-frame results in submission order. -/
theorem dispatcher_preserves_submission_order (extracted_frames : List β) (f : β → α)
    (indexed_results : List (Nat × α))
    (hperm : indexed_results.Perm (tasks extracted_frames f)) :
    extract_from_video indexed_results = extracted_frames.map f := by
  have hsortperm : (List.insertionSort keyLe indexed_results).Perm (tasks extracted_frames f) :=
    (List.perm_insertionSort keyLe indexed_results).trans hperm
  have hkeys : (tasks extracted_frames f).map Prod.fst = List.range extracted_frames.length := by
    unfold tasks
    rw [List.map_map]
    exact List.enum_map_fst extracted_frames
  have hsorted_tasks : List.Sorted keyLt (tasks extracted_frames f) := by
    have hp : List.Pairwise (fun a b => a < b) ((tasks extracted_frames f).map Prod.fst) := by
      rw [hkeys]; exact List.pairwise_lt_range _
    exact (@List.pairwise_map _ _ Prod.fst _ _).mp hp
  have hsorted_le : List.Sorted keyLe (List.insertionSort keyLe indexed_results) :=
    List.sorted_insertionSort keyLe indexed_results
  have hpermkeys : ((List.insertionSort keyLe indexed_results).map Prod.fst).Perm
      (List.range extracted_frames.length) := by
    rw [← hkeys]; exact hsortperm.map Prod.fst
  have hnodup : ((List.insertionSort keyLe indexed_results).map Prod.fst).Nodup :=
    hpermkeys.nodup_iff.mpr (List.nodup_range _)
  have hne : List.Pairwise (fun a b : Nat × α => a.1 ≠ b.1)
      (List.insertionSort keyLe indexed_results) :=
    (@List.pairwise_map _ _ Prod.fst _ _).mp hnodup
  have hsorted_lt : List.Sorted keyLt (List.insertionSort keyLe indexed_results) :=
    (List.Pairwise.and hsorted_le hne).imp (fun h => Nat.lt_of_le_of_ne h.1 h.2)
  have heq : List.insertionSort keyLe indexed_results = tasks extracted_frames f :=
    List.eq_of_perm_of_sorted hsortperm hsorted_lt hsorted_tasks
  unfold extract_from_video
  rw [heq]
  unfold tasks
  rw [List.map_map, show (Prod.snd ∘ fun p : Nat × β => (p.1, f p.2)) = f ∘ Prod.snd from rfl,
    ← List.map_map, List.enum_map_snd]

/-- Witness for claim C1 at the spec's concrete scenario: frames with indices
[0,1,2] whose completions arrive in wall-clock order 1, 0, 2 still yield the
result list [result_0, result_1, result_2]. -/
theorem dispatcher_preserves_submission_order_witness :
    [((1 : Nat), "r1"), ((0 : Nat), "r0"), ((2 : Nat), "r2")].Perm
        (tasks ["0", "1", "2"] (fun s => "r" ++ s)) ∧
    extract_from_video [((1 : Nat), "r1"), ((0 : Nat), "r0"), ((2 : Nat), "r2")]
      = ["r0", "r1", "r2"] := by
  refine ⟨by decide, ?_⟩
  exact dispatcher_preserves_submission_order ["0", "1", "2"] (fun s => "r" ++ s) _ (by decide)

/-- Invariant of the scheduler: in every reachable state, the number of model
calls in flight plus the available permits equals the concurrency ceiling. -/
theorem sem_invariant (numTasks C : Nat) (s : SemState) (h : Reachable numTasks C s) :
    runningCount s + s.available = C := by
  induction h with
  | refl =>
    have h0 : runningCount (initState numTasks C) = 0 := by
      unfold runningCount initState
      simp only [List.countP_eq_zero, List.mem_replicate]
      intro a ha
      rw [ha.2]
      simp [isRunning]
    rw [h0]
    simp [initState]
  | tail hab hbc ih =>
    rename_i b c
    have e1 : (if isRunning TaskStatus.pending then 1 else 0) = 0 := rfl
    have e2 : (if isRunning TaskStatus.running then 1 else 0) = 1 := rfl
    cases hbc with
    | start i hp ha =>
      have hc := countP_set isRunning b.statuses i TaskStatus.pending TaskStatus.running hp
      rw [e1, e2] at hc
      unfold runningCount at ih ⊢
      simp only at ih ⊢
      omega
    | finish i ok hp =>
      have e3 : (if isRunning (TaskStatus.done ok) then 1 else 0) = 0 := rfl
      have hc := countP_set isRunning b.statuses i TaskStatus.running (TaskStatus.done ok) hp
      rw [e2, e3] at hc
      unfold runningCount at ih ⊢
      simp only at ih ⊢
      omega

/-- Claim C8: for every run of the Bounded Dispatcher with concurrency
ceiling `C`, at no point are more than `C` Model Client calls in flight
simultaneously: the admission semaphore is acquired before each call and
released unconditionally afterward — the `finish` step of the scheduler
releases for successful and failed calls alike — so in every reachable state
the in-flight count is at most `C`, the permit accounting is exact, and once
every task has completed (successes and failures in any mix) all `C` permits
are available again: one failing call never starves the pool. -/
theorem semaphore_bounds_in_flight (numTasks C : Nat) (s : SemState)
    (h : Reachable numTasks C s) :
    runningCount s ≤ C ∧ runningCount s + s.available = C ∧
      ((∀ t ∈ s.statuses, ∃ ok, t = TaskStatus.done ok) → s.available = C) := by
  have hinv := sem_invariant numTasks C s h
  refine ⟨by omega, hinv, fun hall => ?_⟩
  have h0 : runningCount s = 0 := by
    unfold runningCount
    rw [List.countP_eq_zero]
    intro a ha
    obtain ⟨ok, hok⟩ := hall a ha
    rw [hok]
    simp [isRunning]
  omega

/-- Witness for claim C8: a concrete two-step schedule (admit task 0, then
have its call fail) reaches a state where the bound and the permit accounting
hold, with the failed call's permit returned. -/
theorem semaphore_bounds_witness :
    runningCount ⟨[TaskStatus.done false, TaskStatus.pending], 20⟩ ≤ 20 ∧
    runningCount ⟨[TaskStatus.done false, TaskStatus.pending], 20⟩ +
      SemState.available ⟨[TaskStatus.done false, TaskStatus.pending], 20⟩ = 20 := by
  have h1 : SemStep (initState 2 20) ⟨[TaskStatus.running, TaskStatus.pending], 19⟩ :=
    SemStep.start (initState 2 20) 0 rfl (by decide)
  have h2 : SemStep ⟨[TaskStatus.running, TaskStatus.pending], 19⟩
      ⟨[TaskStatus.done false, TaskStatus.pending], 20⟩ :=
    SemStep.finish ⟨[TaskStatus.running, TaskStatus.pending], 19⟩ 0 false rfl
  have hreach : Reachable 2 20 ⟨[TaskStatus.done false, TaskStatus.pending], 20⟩ :=
    Relation.ReflTransGen.tail (Relation.ReflTransGen.tail Relation.ReflTransGen.refl h1) h2
  obtain ⟨ha, hb, _⟩ := semaphore_bounds_in_flight 2 20 _ hreach
  exact ⟨ha, hb⟩

/-- A failing frame anywhere in the submission list makes the chat_extract
gather abort: the run never completes with a value. -/
theorem gatherResults_error_in (e : ε) (post : List (Except ε α)) :
    ∀ pre : List (Except ε α), (gatherResults (pre ++ Except.error e :: post)).isOk = false := by
  intro pre
  induction pre with
  | nil => rfl
  | cons x rest ih =>
    cases x with
    | error e2 => rfl
    | ok v =>
      rw [List.cons_append]
      show (match gatherResults (rest ++ Except.error e :: post) with
            | Except.error e3 => Except.error e3
            | Except.ok vs => Except.ok (v :: vs)).isOk = false
      cases hg : gatherResults (rest ++ Except.error e :: post) with
      | error e3 => rfl
      | ok vs => rw [hg] at ih; cases ih

/-- In the groupchat_text_extraction dispatcher a failed frame contributes
nothing and the remaining frames' data is aggregated unchanged. -/
theorem main_skips_failed (e : ε) (preM postM : List (Except ε (List α))) :
    main_extracted_data (preM ++ Except.error e :: postM)
      = main_extracted_data preM ++ main_extracted_data postM := by
  unfold main_extracted_data
  rw [List.map_append, List.filterMap_append, List.flatten_append]
  rfl

/-- Elements of the deduplicated list come from the input list. -/
theorem mem_of_mem_dedupFirstAux [DecidableEq γ] (l : List γ) :
    ∀ (seen : List γ) (x : γ), x ∈ dedupFirstAux seen l → x ∈ l := by
  induction l with
  | nil => intro seen x h; simp [dedupFirstAux] at h
  | cons a r ih =>
    intro seen x h
    by_cases ha : a ∈ seen
    · rw [dedupFirstAux, if_pos ha] at h
      exact List.mem_cons_of_mem a (ih seen x h)
    · rw [dedupFirstAux, if_neg ha] at h
      rcases List.mem_cons.mp h with rfl | h2
      · exact List.mem_cons_self x r
      · exact List.mem_cons_of_mem a (ih (a :: seen) x h2)

/-- The deduplicated list has no duplicates and avoids the seen set. -/
theorem dedupFirstAux_nodup [DecidableEq γ] (l : List γ) :
    ∀ seen : List γ, (dedupFirstAux seen l).Nodup ∧ ∀ x ∈ dedupFirstAux seen l, x ∉ seen := by
  induction l with
  | nil => intro seen; exact ⟨List.nodup_nil, by simp [dedupFirstAux]⟩
  | cons a r ih =>
    intro seen
    by_cases ha : a ∈ seen
    · rw [dedupFirstAux, if_pos ha]
      exact ih seen
    · rw [dedupFirstAux, if_neg ha]
      obtain ⟨hnd, hnotin⟩ := ih (a :: seen)
      refine ⟨List.nodup_cons.mpr ⟨fun hmem => hnotin a hmem (List.mem_cons_self a seen), hnd⟩, ?_⟩
      intro x hx
      rcases List.mem_cons.mp hx with rfl | hx2
      · exact ha
      · exact fun hxs => hnotin x hx2 (List.mem_cons_of_mem a hxs)

/-- Deduplicating a duplicate-free list disjoint from the seen set is the
identity. -/
theorem dedupFirstAux_eq_self [DecidableEq γ] (l : List γ) :
    ∀ seen : List γ, l.Nodup → (∀ x ∈ l, x ∉ seen) → dedupFirstAux seen l = l := by
  induction l with
  | nil => intro seen _ _; rfl
  | cons a r ih =>
    intro seen hnd hns
    have ha : a ∉ seen := hns a (List.mem_cons_self a r)
    rw [dedupFirstAux, if_neg ha]
    congr 1
    refine ih (a :: seen) (List.nodup_cons.mp hnd).2 ?_
    intro x hx hmem
    rcases List.mem_cons.mp hmem with rfl | hx2
    · exact (List.nodup_cons.mp hnd).1 hx
    · exact hns x (List.mem_cons_of_mem a hx) hx2

/-- Deduplication only drops elements, preserving the relative order of the
kept first occurrences. -/
theorem dedupFirstAux_sublist [DecidableEq γ] (l : List γ) :
    ∀ seen : List γ, (dedupFirstAux seen l).Sublist l := by
  induction l with
  | nil => intro seen; exact List.Sublist.refl []
  | cons a r ih =>
    intro seen
    by_cases ha : a ∈ seen
    · rw [dedupFirstAux, if_pos ha]
      exact List.Sublist.cons a (ih seen)
    · rw [dedupFirstAux, if_neg ha]
      exact List.Sublist.cons₂ a (ih (a :: seen))

/-- The output of `dedupFirst` is duplicate-free. -/
theorem dedupFirst_nodup [DecidableEq γ] (l : List γ) : (dedupFirst l).Nodup :=
  (dedupFirstAux_nodup l []).1

/-- Membership in the output of `dedupFirst` implies membership in the
input. -/
theorem dedupFirst_mem [DecidableEq γ] {l : List γ} {x : γ} (h : x ∈ dedupFirst l) : x ∈ l :=
  mem_of_mem_dedupFirstAux l [] x h

/-- On duplicate-free lists `dedupFirst` is the identity. -/
theorem dedupFirst_eq_self [DecidableEq γ] (l : List γ) (h : l.Nodup) : dedupFirst l = l :=
  dedupFirstAux_eq_self l [] h (by simp)

/-- Placeholder replacement on one cell is idempotent: the replaced cell never
equals the placeholder token again. -/
theorem replaceField_idem (tok : String) (v : Option String) :
    replaceField tok (replaceField tok v) = replaceField tok v := by
  unfold replaceField
  by_cases h : v = some tok
  · simp [h]
  · simp [h]

/-- Placeholder replacement on a whole row is idempotent. -/
theorem replacePlaceholders_idem (r : Message) :
    replacePlaceholders (replacePlaceholders r) = replacePlaceholders r := by
  unfold replacePlaceholders
  simp [replaceField_idem]

/-- The row-level cleanup (replace placeholders, drop all-null rows,
deduplicate order-stably) is idempotent. -/
theorem cleanupRows_idem (rows : List Message) :
    cleanupRows (cleanupRows rows) = cleanupRows rows := by
  unfold cleanupRows
  have hfix : ∀ x ∈ List.filter keepRow (rows.map replacePlaceholders),
      replacePlaceholders x = x := by
    intro x hx
    obtain ⟨y, _, hy⟩ := List.mem_map.mp (List.mem_filter.mp hx).1
    rw [← hy, replacePlaceholders_idem]
  have hkeep : ∀ x ∈ List.filter keepRow (rows.map replacePlaceholders), keepRow x = true :=
    fun x hx => (List.mem_filter.mp hx).2
  have hmap : (dedupFirst (List.filter keepRow (rows.map replacePlaceholders))).map
      replacePlaceholders = dedupFirst (List.filter keepRow (rows.map replacePlaceholders)) := by
    rw [List.map_congr_left (fun x hx => hfix x (dedupFirst_mem hx))]
    exact List.map_id _
  have hfil : List.filter keepRow (dedupFirst (List.filter keepRow (rows.map replacePlaceholders)))
      = dedupFirst (List.filter keepRow (rows.map replacePlaceholders)) :=
    List.filter_eq_self.mpr (fun x hx => hkeep x (dedupFirst_mem hx))
  rw [hmap, hfil, dedupFirst_eq_self _ (dedupFirst_nodup _)]

/-- Claim C2: for every stride `n ≥ 1` and every video of `F` decoded frames,
the Frame Sampler emits exactly `⌈F / n⌉ = (F + n - 1) / n` image files — the
frames at decode-time indices `0, n, 2n, …`, in strictly increasing temporal
order — and the returned paths are `frame_0.jpg, frame_1.jpg, …`, zero-indexed
by emission order independent of the decode-time frame index. -/
theorem frame_sampler_every_nth (F n : Nat) (hn : 1 ≤ n) :
    (extract_frames F n).extracted_frames.length = (F + n - 1) / n ∧
    (extract_frames F n).extracted_frames = (List.range ((F + n - 1) / n)).map frameName ∧
    (extract_frames F n).written.map Prod.snd
      = (List.range ((F + n - 1) / n)).map (fun k => k * n) ∧
    List.Pairwise (fun a b => a < b) ((extract_frames F n).written.map Prod.snd) := by
  obtain ⟨hfc, hsc, hef, hw⟩ := extract_frames_spec n hn F
  have hsnd : (extract_frames F n).written.map Prod.snd
      = (List.range ((F + n - 1) / n)).map (fun k => k * n) := by
    rw [hw, List.map_map]
    rfl
  refine ⟨?_, hef, hsnd, ?_⟩
  · rw [hef, List.length_map, List.length_range]
  · rw [hsnd]
    refine (@List.pairwise_map _ _ _ _ _).mpr ?_
    refine (List.pairwise_lt_range _).imp ?_
    intro a b hab
    exact (Nat.mul_lt_mul_right (show 0 < n by omega)).mpr hab

/-- Witness for claim C2 at `F = 5`, `n = 2`: three files named by emission
order, taken from decode-time indices 0, 2 and 4. -/
theorem frame_sampler_every_nth_witness :
    (extract_frames 5 2).extracted_frames = (List.range ((5 + 2 - 1) / 2)).map frameName ∧
    (extract_frames 5 2).extracted_frames = ["frame_0.jpg", "frame_1.jpg", "frame_2.jpg"] ∧
    (extract_frames 5 2).written.map Prod.snd = [0, 2, 4] :=
  ⟨(frame_sampler_every_nth 5 2 (by decide)).2.1, by decide, by decide⟩

/-- Claim C3: the Aggregator/Cleaner replaces the literal placeholder tokens
with null per field, drops rows whose three content fields are all null, and
removes exact duplicates keeping the first occurrence, order-stably.  On the
spec's example — the all-placeholder row, the Alice row twice, the all-null
row and the Bob row — it outputs exactly the Alice row then the Bob row; and
for every input row set the output has no all-null row, no duplicates, and is
an order-preserving selection of the replaced-and-filtered rows. -/
theorem cleanup_example_rows (rows : List Message) :
    cleanup_df ⟨["sender", "message", "timestamp", "image_description"],
        [placeholderRow, aliceRow, aliceRow, allNullRow, bobRow]⟩
      = Except.ok ⟨["sender", "message", "timestamp", "image_description"],
          [aliceRow, bobRow]⟩ ∧
    (∀ r ∈ cleanupRows rows, keepRow r = true) ∧
    (cleanupRows rows).Nodup ∧
    (cleanupRows rows).Sublist (List.filter keepRow (rows.map replacePlaceholders)) := by
  refine ⟨rfl, ?_, dedupFirst_nodup _, dedupFirstAux_sublist _ []⟩
  intro r hr
  exact (List.mem_filter.mp (dedupFirst_mem hr)).2

/-- Counterexample to claim C4 as stated: in the chat_extract dispatcher a
frame whose remote call failed on all three attempts reraises out of `gather`,
so the run aborts with the exception instead of completing with an empty
MessageBatch substituted for the failed frame. -/
theorem one_bad_frame_aborts_run_cex :
    gatherResults [Except.ok (MessageList.mk [aliceRow]), Except.error "APIConnectionError"]
      = Except.error "APIConnectionError" ∧
    gatherResults [Except.ok (MessageList.mk [aliceRow]), Except.error "APIConnectionError"]
      ≠ Except.ok [MessageList.mk [aliceRow], MessageList.mk []] :=
  ⟨rfl, fun h => Except.noConfusion h⟩

/-- Claim C4 (amended): when some frame's remote call fails on all attempts,
the chat_extract dispatcher aborts the whole run (the exhausted failure
reraises and `gather` propagates it), while the groupchat_text_extraction
variant catches the failure, substitutes `None` — an empty contribution — for
that frame, and completes the run with the remaining frames' results
unchanged. -/
theorem failed_frame_policy_split (pre post : List (Except String MessageList)) (e : String)
    (preM postM : List (Except String (List Message))) (e2 : String) :
    (gatherResults (pre ++ Except.error e :: post)).isOk = false ∧
    process_frame (Except.error e2) = (none : Option (List Message)) ∧
    main_extracted_data (preM ++ Except.error e2 :: postM)
      = main_extracted_data preM ++ main_extracted_data postM :=
  ⟨gatherResults_error_in e post pre, rfl, main_skips_failed e2 preM postM⟩

/-- Claim C5 (code bug): on a video that decodes to zero frames the Frame
Sampler correctly returns an empty sequence without error, but the downstream
pipeline does not produce an empty output file: `to_polars` of the empty
extraction builds the zero-column frame `pl.DataFrame([])`, and `cleanup_df`'s
`with_columns` then raises `ColumnNotFoundError` referencing the missing
`sender` column, so the run raises and no output file is written. -/
theorem zero_frames_pipeline_raises (n : Nat) :
    (extract_frames 0 n).extracted_frames = [] ∧
    (extract_frames 0 n).written = [] ∧
    extract_data_from_video [] = Except.error "ColumnNotFoundError" :=
  ⟨rfl, rfl, rfl⟩

/-- Counterexample to claim C6 as stated: in chat_extract a run with one
frame that exhausts its retries aborts before the deletion loop, leaving every
extracted frame file in the scratch directory. -/
theorem leftover_files_after_failed_frame_cex :
    (extract_from_video_disk ["frame_0.jpg", "frame_1.jpg"]
        [Except.ok (MessageList.mk []), Except.error "APIConnectionError"]).2
      = ["frame_0.jpg", "frame_1.jpg"] ∧
    (extract_from_video_disk ["frame_0.jpg", "frame_1.jpg"]
        [Except.ok (MessageList.mk []), Except.error "APIConnectionError"]).2 ≠ [] :=
  ⟨rfl, fun h => List.noConfusion h⟩

/-- Claim C6 (amended): in the groupchat_text_extraction variant every
frame's image file is deleted in the task's `finally` block, so after a run
the scratch directory is empty regardless of per-frame failures; in
chat_extract the frame files are deleted in one loop after all frames
completed, so a fully successful run leaves no leftover files, but deletion is
skipped entirely when any frame exhausts its retries. -/
theorem deletion_policy_split (frames mframes : List String)
    (results : List (Except String MessageList))
    (hok : (gatherResults results).isOk = true) :
    (extract_from_video_disk frames results).2 = [] ∧
    main_run_disk mframes mframes = [] := by
  constructor
  · cases hg : gatherResults results with
    | error e => rw [hg] at hok; cases hok
    | ok vs =>
      unfold extract_from_video_disk
      rw [hg]
      exact foldl_erase_self frames
  · exact foldl_erase_self mframes

/-- Witness for claim C6 (amended): a successful chat_extract run deletes its
frame file, and a groupchat_text_extraction run deletes both of its frame
files. -/
theorem deletion_policy_split_witness :
    (extract_from_video_disk ["frame_0.jpg"]
        [(Except.ok (MessageList.mk []) : Except String MessageList)]).2 = [] ∧
    main_run_disk ["frame_0.jpg", "frame_1.jpg"] ["frame_0.jpg", "frame_1.jpg"] = [] :=
  deletion_policy_split ["frame_0.jpg"] ["frame_0.jpg", "frame_1.jpg"]
    [(Except.ok (MessageList.mk []) : Except String MessageList)] rfl

/-- Claim C7: for every frame whose remote call fails on the first two
attempts and succeeds on the third, the Model Client's retry wrapper (attempt
cap 3, incrementally increasing backoff of 1s then 2s) returns exactly the
successful third reply, so the caller never observes the two earlier
failures. -/
theorem retry_succeeds_on_third_attempt (call : Nat → Except ε α) (e0 e1 : ε) (v : α)
    (h0 : call 0 = Except.error e0) (h1 : call 1 = Except.error e1)
    (h2 : call 2 = Except.ok v) :
    extract_from_frame call = Except.ok v ∧
    wait_incrementing 1 1 1 = 1 ∧ wait_incrementing 1 1 2 = 2 ∧
    wait_incrementing 1 1 1 < wait_incrementing 1 1 2 := by
  refine ⟨?_, rfl, rfl, by decide⟩
  unfold extract_from_frame
  show retryAttempts call (1 + 2) 0 = Except.ok v
  rw [retryAttempts, h0]
  show retryAttempts call (0 + 2) 1 = Except.ok v
  rw [retryAttempts, h1]
  show retryAttempts call 1 2 = Except.ok v
  rw [retryAttempts, h2]

/-- Witness for claim C7: a call that fails on attempts 1 and 2 and succeeds
on attempt 3 yields the third reply. -/
theorem retry_succeeds_on_third_attempt_witness :
    extract_from_frame (fun k => if k < 2 then Except.error "transient"
        else Except.ok (MessageList.mk [aliceRow]))
      = Except.ok (MessageList.mk [aliceRow]) :=
  (retry_succeeds_on_third_attempt
    (fun k => if k < 2 then Except.error "transient" else Except.ok (MessageList.mk [aliceRow]))
    "transient" "transient" (MessageList.mk [aliceRow]) rfl rfl rfl).1

/-- Claim C9: every `Message` produced by the Model Client stores its
timestamp as provided — arbitrary timestamp strings are accepted and the
original string representation is stored, and an un-parseable timestamp never
causes the `Message` to be rejected, because the `parse_timestamp` validator
is never registered by pydantic (the `classmethod` decorator wraps the
validator proxy) and the plain union validation stores strings verbatim. -/
theorem timestamp_stored_verbatim (sender message timestamp image_description : Option String) :
    (Message.model_validate sender message timestamp image_description).isOk = true ∧
    Message.model_validate sender message timestamp image_description
      = Except.ok ⟨sender, message, timestamp, image_description⟩ :=
  ⟨rfl, rfl⟩

/-- Claim C10: the Aggregator/Cleaner's cleanup is idempotent — whenever
`cleanup_df` succeeds, its output is a fixed point of `cleanup_df`. -/
theorem cleanup_df_idempotent (df out : DataFrame) (h : cleanup_df df = Except.ok out) :
    cleanup_df out = Except.ok out := by
  unfold cleanup_df at h ⊢
  by_cases hc : (df.columns.contains "sender" && df.columns.contains "message"
      && df.columns.contains "timestamp") = true
  · rw [if_pos hc] at h
    injection h with h2
    rw [← h2]
    simp only [if_pos hc]
    rw [cleanupRows_idem]
  · rw [if_neg hc] at h
    exact Except.noConfusion h

/-- Witness for claim C10: cleaning the two-copy Alice frame yields the
one-copy Alice frame, which `cleanup_df` maps to itself. -/
theorem cleanup_df_idempotent_witness :
    cleanup_df ⟨["sender", "message", "timestamp", "image_description"], [aliceRow]⟩
      = Except.ok ⟨["sender", "message", "timestamp", "image_description"], [aliceRow]⟩ :=
  cleanup_df_idempotent
    ⟨["sender", "message", "timestamp", "image_description"], [aliceRow, aliceRow]⟩ _ rfl
